import Mathlib

/-!
# Verification of the markdown-to-epub converter

Shallow embedding of the two Python source files of the repository
(`markdown_to_epub.py` and `fix_special_chars.py`) together with proofs
about the embedded operations: chapter discovery and ordering, package
document (content.opf) generation, cover handling, XML escaping, EPUB
packaging, consolidation mode, title extraction and the special-character
cleanup script.

Strings are modelled as `String` / `List Char`; the file system is modelled
as the directory listing (a list of file names in listing order), a content
oracle `String → String`, and an existence predicate `String → Bool`.
The `markdown` library conversion of chapter bodies to HTML is outside the
scope of the claims and is not modelled; chapter processing is modelled up
to the data recorded per chapter (id, href, title, filename).
-/

namespace M2E

/-! ## Basic Python string primitives -/

/-- The set of characters matched by Python's whitespace class (both the
regex class `\s` and the default of `str.strip` / `str.isspace`, which
coincide on all of Unicode). -/
def isPySpace (c : Char) : Bool :=
  [0x9, 0xA, 0xB, 0xC, 0xD, 0x1C, 0x1D, 0x1E, 0x1F, 0x20, 0x85, 0xA0,
   0x1680, 0x2000, 0x2001, 0x2002, 0x2003, 0x2004, 0x2005, 0x2006, 0x2007,
   0x2008, 0x2009, 0x200A, 0x2028, 0x2029, 0x202F, 0x205F,
   0x3000].contains c.toNat

/-- Fuel-bounded worker for `replaceAll` (structural recursion on the
fuel, so that concrete instances evaluate inside the kernel).  The fuel
never runs out when it starts at the length of the list. -/
def replaceAllF (old new : List Char) : Nat → List Char → List Char
  | _, [] => []
  | 0, s => s
  | fuel + 1, c :: rest =>
    if old ≠ [] ∧ old.isPrefixOf (c :: rest) then
      new ++ replaceAllF old new fuel ((c :: rest).drop old.length)
    else
      c :: replaceAllF old new fuel rest

/-- Python's `str.replace(old, new)` on character lists: scan left to right,
replacing each non-overlapping occurrence of `old` (leftmost first) by
`new`.  (All call sites in the sources use a non-empty `old`.) -/
def replaceAll (old new : List Char) (s : List Char) : List Char :=
  replaceAllF old new s.length s

/-- Python's `str.strip()` with no argument: remove leading and trailing
whitespace. -/
def pyStrip (l : List Char) : List Char :=
  ((l.dropWhile isPySpace).reverse.dropWhile isPySpace).reverse

/-- The value of `int(ds)` for a non-empty string of decimal digits. -/
def digitsToNat (ds : List Char) : Nat :=
  ds.foldl (fun a c => a * 10 + (c.toNat - 48)) 0

/-- Python's `content.split('\n')`: the (possibly empty) segments between
newline characters. -/
def splitOnNl : List Char → List (List Char)
  | [] => [[]]
  | c :: rest =>
    match splitOnNl rest with
    | [] => [[c]]
    | l :: ls => if c = '\n' then [] :: l :: ls else (c :: l) :: ls

/-! ## fix_special_chars.py -/

/-- Left double quotation mark U+201C. -/
def ldq : Char := Char.ofNat 0x201C
/-- Right double quotation mark U+201D. -/
def rdq : Char := Char.ofNat 0x201D
/-- Left single quotation mark U+2018. -/
def lsq : Char := Char.ofNat 0x2018
/-- Right single quotation mark U+2019. -/
def rsq : Char := Char.ofNat 0x2019
/-- Em dash U+2014. -/
def mdash : Char := Char.ofNat 0x2014
/-- En dash U+2013. -/
def ndash : Char := Char.ofNat 0x2013
/-- Horizontal ellipsis U+2026. -/
def hellip : Char := Char.ofNat 0x2026
/-- Non-breaking space U+00A0. -/
def nbsp : Char := Char.ofNat 0x00A0
/-- Bullet U+2022. -/
def bullet : Char := Char.ofNat 0x2022
/-- The two-character sequence backslash, `n` (a literal `\n` in the text,
not a newline character). -/
def bsn : List Char := ['\\', 'n']

/-- Model of `fix_special_chars` from fix_special_chars.py on character
lists: the
replacements of the `replacements` dict applied with `str.replace` in
insertion order. -/
def fixData (l : List Char) : List Char :=
  replaceAll bsn [' '] <|
  replaceAll [bullet] ['*'] <|
  replaceAll [nbsp] [' '] <|
  replaceAll [hellip] ['.', '.', '.'] <|
  replaceAll [ndash] ['-'] <|
  replaceAll [mdash] ['-', '-'] <|
  replaceAll [rsq] ['\''] <|
  replaceAll [lsq] ['\''] <|
  replaceAll [rdq] ['"'] <|
  replaceAll [ldq] ['"'] l

/-- Model of `fix_special_chars` on `String`. -/
def fix_special_chars (s : String) : String := ⟨fixData s.data⟩

/-! ## markdown_to_epub.py : chapter discovery -/

/-- The glob pattern `pfx*`+`sfx` (e.g. `chapter-*.md`): the name is the
prefix, then anything (possibly empty), then the suffix. -/
def matchesGlobPat (pfx sfx : List Char) (name : String) : Bool :=
  pfx.isPrefixOf name.data && sfx.isSuffixOf name.data &&
    decide (pfx.length + sfx.length ≤ name.data.length)

/-- The literal prefix of the primary chapter pattern. -/
def chapterPfx : List Char := "chapter-".data

/-- The literal prefix of the fallback chapter pattern. -/
def chapPfx : List Char := "chap-".data

/-- The `.md` suffix of the chapter glob patterns. -/
def mdSfx : List Char := ".md".data

/-- Leftmost match of the regex `pfx(\d+)` (e.g. `chapter-(\d+)` as used by
`re.search` in the sort key): scan positions left to right; at the first
position where the literal `pfx` is followed by at least one decimal digit,
capture the maximal digit run. -/
def searchKeyDigits (pfx : List Char) : List Char → Option (List Char)
  | [] => none
  | c :: rest =>
    if pfx.isPrefixOf (c :: rest) then
      let ds := ((c :: rest).drop pfx.length).takeWhile Char.isDigit
      if ds.isEmpty then searchKeyDigits pfx rest else some ds
    else searchKeyDigits pfx rest

/-- The numeric sort key `int(re.search(r'pfx(\d+)', name).group(1))`,
or `none` when the regex does not match (in which case the Python code
raises `AttributeError` on the `None.group` access). -/
def chapterKey (pfx : List Char) (name : String) : Option Nat :=
  (searchKeyDigits pfx name.data).map digitsToNat

/-- The sort key with a default, used only where all keys are known to
exist. -/
def keyD (pfx : List Char) (name : String) : Nat := (chapterKey pfx name).getD 0

/-- The files of the directory listing matching the glob `pfx*`+`.md`, in
listing order (the order `Path.glob` yields, i.e. filesystem order). -/
def globFiles (pfx : List Char) (listing : List String) : List String :=
  listing.filter (fun n => matchesGlobPat pfx mdSfx n)

/-- Model of `sorted(files, key=...)`: a stable sort by the numeric key
(Python's
sort is stable; a stable sort is modelled here by a stable insertion
sort, whose output agrees with every stable sort under the same
comparison). -/
def sortByKey (pfx : List Char) (files : List String) : List String :=
  files.insertionSort (fun a b => keyD pfx a ≤ keyD pfx b)

/-- Result of chapter discovery. -/
inductive DiscResult where
  | ok (files : List String)
  | attrError
  | noChapters
  deriving DecidableEq, Repr

/-- Chapter discovery as performed identically by `_process_chapters`,
`_consolidate_chapters` and `_convert_to_pdf`: glob `chapter-*.md` and sort
numerically; if that yields nothing, glob `chap-*.md` and sort numerically;
if that also yields nothing, raise `ValueError` (`noChapters`).  Computing a
sort key of a matched file whose name has no `pfx`+digits occurrence raises
`AttributeError` (`attrError`). -/
def discoverChapters (listing : List String) : DiscResult :=
  let g1 := globFiles chapterPfx listing
  if g1.isEmpty then
    let g2 := globFiles chapPfx listing
    if g2.isEmpty then .noChapters
    else if g2.all (fun n => (chapterKey chapPfx n).isSome) then
      .ok (sortByKey chapPfx g2)
    else .attrError
  else if g1.all (fun n => (chapterKey chapterPfx n).isSome) then
    .ok (sortByKey chapterPfx g1)
  else .attrError

/-- The pattern discovery will use on a listing: the primary `chapter-`
prefix when it matches at least one file, else the `chap-` fallback
prefix (used to state discovery results uniformly over both naming
patterns). -/
def activePfx (listing : List String) : List Char :=
  if globFiles chapterPfx listing = [] then chapPfx else chapterPfx

/-! ## markdown_to_epub.py : title extraction

The chapter title is `re.search(r'^#\s+(.+)$', content, re.MULTILINE)`:
the scan visits line starts left to right; at a `#`, `\s+` greedily takes
the following whitespace run (which may cross newlines) and backtracks
until `(.+)$` can match at least one non-newline character up to the end
of a line. -/

/-- The largest index `j ≥ 1` into the whitespace run `w` holding a
character other than newline — the backtracking position of `\s+` when the
whitespace run extends to the end of the document. -/
def lastGoodIdx (w : List Char) : Option Nat :=
  ((List.range w.length).filter
    (fun j => decide (1 ≤ j) && decide (w.getD j '\n' ≠ '\n'))).getLast?

/-- Attempt of the regex `#\s+(.+)$` at a line start whose first character
was `#`; `rest` is the text after the `#`.  Returns the captured group. -/
def hashMatch (rest : List Char) : Option (List Char) :=
  let w := rest.takeWhile isPySpace
  let tl := rest.drop w.length
  if w.isEmpty then none
  else if tl.isEmpty then
    match lastGoodIdx w with
    | some j => some ((rest.drop j).takeWhile (fun d => decide (d ≠ '\n')))
    | none => none
  else some (tl.takeWhile (fun d => decide (d ≠ '\n')))

/-- Fuel-bounded worker for `grabTitle` (structural recursion on the fuel;
the fuel never runs out when it starts at the length of the list). -/
def grabTitleF : Nat → List Char → Option (List Char)
  | _, [] => none
  | 0, _ => none
  | fuel + 1, c :: rest =>
    match (if c = '#' then hashMatch rest else none) with
    | some t => some t
    | none =>
      grabTitleF fuel (((c :: rest).dropWhile (fun d => decide (d ≠ '\n'))).drop 1)

/-- Model of `re.search(r'^#\s+(.+)$', content, re.MULTILINE)`: try each
line start
in order; on failure skip past the next newline. -/
def grabTitle (s : List Char) : Option (List Char) :=
  grabTitleF s.length s

/-- The chapter title of `_process_chapters`: the captured group of the
first regex match, else the synthesized `Chapter <idx>`. -/
def extractTitle (content : String) (idx : Nat) : String :=
  match grabTitle content.data with
  | some t => ⟨t⟩
  | none => "Chapter " ++ toString idx

/-- Modelled from the spec: the per-line reading of the sentence
"the first line matching a level-1 heading pattern (`# <text>`) supplies
the title".  A line (which contains no newline) supplies a title exactly
when the single-line regex `^#\s+(.+)$` matches it; otherwise the title is
synthesized.  This definition exists to be compared with the code's
`extractTitle`, whose regex whitespace may cross line boundaries. -/
def specFirstHeadingTitle (content : String) (idx : Nat) : String :=
  match (splitOnNl content.data).findSome? (fun ln =>
      match ln with
      | '#' :: rest => hashMatch rest
      | _ => none) with
  | some t => ⟨t⟩
  | none => "Chapter " ++ toString idx

/-! ## markdown_to_epub.py : chapter records and configuration -/

/-- Zero-padded two-digit formatting `f'{idx:02d}'` for positive indices. -/
def pad2 (n : Nat) : String := if n < 10 then "0" ++ toString n else toString n

/-- The per-chapter record appended to `self.chapters`. -/
structure Chapter where
  id : String
  href : String
  title : String
  filename : String
  deriving DecidableEq, Repr

/-- One iteration of the `_process_chapters` loop (1-based index). -/
def mkChapter (idx : Nat) (content : String) : Chapter :=
  { id := "chap" ++ pad2 idx
    href := "Text/chapter-" ++ pad2 idx ++ ".xhtml"
    title := extractTitle content idx
    filename := "chapter-" ++ pad2 idx ++ ".xhtml" }

/-- Model of `_process_chapters` over the discovered (sorted) chapter
contents. -/
def process_chapters (contents : List String) : List Chapter :=
  (List.enumFrom 1 contents).map (fun p => mkChapter p.1 p.2)

/-- The configuration dict, after `load_config` has installed defaults for
title, author, language, input_dir and output. `publisher` and `cover` may
be absent (`None`). -/
structure Config where
  title : String
  author : String
  language : String
  publisher : Option String := none
  cover : Option String := none
  noPackage : Bool := false
  inputDir : String := "manuscript"
  output : String := "book.epub"

/-- Python truthiness of `self.config.get('cover')`: present and not the
empty string. -/
def coverConfigured (cfg : Config) : Bool :=
  match cfg.cover with
  | some p => decide (p ≠ "")
  | none => false

/-- The guard `self.config.get('cover') and Path(self.config['cover']).exists()`
used by `_copy_assets` and by the manifest part of `_generate_content_opf`. -/
def coverPresent (cfg : Config) (fs : String → Bool) : Bool :=
  coverConfigured cfg && fs (cfg.cover.getD "")

/-- A concrete configuration with no cover (for evaluating the model at
concrete inputs). -/
def cfgPlain : Config := { title := "T", author := "A", language := "en" }

/-- A concrete configuration whose cover path is set but whose cover file
does not exist on the (empty) file system. -/
def cfgMissingCover : Config :=
  { title := "T", author := "A", language := "en",
    cover := some "missing.png" }

/-- A concrete configuration whose cover path is set and exists. -/
def cfgWithCover : Config :=
  { title := "T", author := "A", language := "en",
    cover := some "art/cover.png" }

/-- The empty file system: no file exists. -/
def fsNone : String → Bool := fun _ => false

/-- The full file system: every file exists. -/
def fsAll : String → Bool := fun _ => true

/-! ## Path helpers (`pathlib.Path.suffix`, `str.lstrip('.')`) -/

/-- The final path component. -/
def baseName (p : String) : List Char :=
  (p.data.reverse.takeWhile (fun c => decide (c ≠ '/'))).reverse

/-- Index of the last `.` of a name, if any. -/
def lastDotIdx (n : List Char) : Option Nat :=
  ((List.range n.length).filter (fun j => decide (n.getD j ' ' = '.'))).getLast?

/-- Model of `pathlib.Path(p).suffix`: the extension including the dot,
empty when
the last dot is absent, leading, or trailing. -/
def pathSuffix (p : String) : String :=
  let n := baseName p
  match lastDotIdx n with
  | some i => if 0 < i ∧ i < n.length - 1 then ⟨n.drop i⟩ else ""
  | none => ""

/-- Model of `str.lstrip('.')`. -/
def stripDots (s : String) : String :=
  ⟨s.data.dropWhile (fun c => decide (c = '.'))⟩

/-! ## markdown_to_epub.py : XML escaping -/

/-- Model of `_escape_xml` on character lists: the five `str.replace`
calls in
source order (`&` first). -/
def escapeXmlData (l : List Char) : List Char :=
  replaceAll ['\''] "&apos;".data <|
  replaceAll ['"'] "&quot;".data <|
  replaceAll ['>'] "&gt;".data <|
  replaceAll ['<'] "&lt;".data <|
  replaceAll ['&'] "&amp;".data l

/-- Model of `_escape_xml` on `String`. -/
def escape_xml (s : String) : String := ⟨escapeXmlData s.data⟩

/-- Holds (`true`) when none of `<`, `>`, `"`, `'` occurs in the list. -/
def noRawSpecials (l : List Char) : Bool :=
  l.all (fun c => decide (c ≠ '<') && decide (c ≠ '>') &&
    decide (c ≠ '"') && decide (c ≠ '\''))

/-- Holds (`true`) when `l` begins with the tail of one of the five XML
entities
produced by `_escape_xml` (the part after the `&`). -/
def entityTailAt (l : List Char) : Bool :=
  ["amp;", "lt;", "gt;", "quot;", "apos;"].any
    (fun e => e.data.isPrefixOf l)

/-- Every occurrence of `&` in the list starts one of the five XML
entities. -/
def ampsEntityOnly : List Char → Bool
  | [] => true
  | c :: rest => (if c = '&' then entityTailAt rest else true) && ampsEntityOnly rest

/-- The per-character effect of `_escape_xml` (used to state and prove its
properties; `escapeXmlData` is proved equal to `flatMap escChar`). -/
def escChar (c : Char) : List Char :=
  if c = '&' then "&amp;".data
  else if c = '<' then "&lt;".data
  else if c = '>' then "&gt;".data
  else if c = '"' then "&quot;".data
  else if c = '\'' then "&apos;".data
  else [c]

/-! ## markdown_to_epub.py : content.opf and nav.xhtml generation -/

/-- A `<item>` element of the manifest. -/
structure ManifestItem where
  id : String
  href : String
  mediaType : String
  properties : Option String := none
  deriving DecidableEq, Repr

/-- The generated package document, as structured data: the escaped
user-supplied metadata fields, the unconditional legacy cover metadata
reference `<meta name="cover" content="cover-image"/>`, the manifest items
and the spine idrefs, in document order. -/
structure Opf where
  dcTitle : String
  dcCreator : String
  dcLanguage : String
  dcPublisher : String
  metaCoverContent : String
  manifest : List ManifestItem
  spine : List String
  deriving DecidableEq, Repr

/-- The fixed `nav` manifest item. -/
def navItem : ManifestItem :=
  { id := "nav", href := "nav.xhtml", mediaType := "application/xhtml+xml",
    properties := some "nav" }

/-- The fixed `css` manifest item. -/
def cssItem : ManifestItem :=
  { id := "css", href := "Styles/stylesheet.css", mediaType := "text/css" }

/-- The `cover-image` manifest item as built from the configured cover
path. -/
def coverImageItem (cfg : Config) : ManifestItem :=
  let ext := stripDots (pathSuffix (cfg.cover.getD ""))
  { id := "cover-image", href := "Images/cover." ++ ext,
    mediaType := if ext = "jpg" then "image/jpeg" else "image/" ++ ext,
    properties := some "cover-image" }

/-- The cover document manifest item. -/
def coverDocItem : ManifestItem :=
  { id := "cover", href := "Text/cover.xhtml",
    mediaType := "application/xhtml+xml" }

/-- Model of `_generate_content_opf`: the manifest adds the two cover
items only
when a cover is configured *and* the file exists; the spine prepends the
cover itemref whenever a cover is configured (no existence check); the
legacy `<meta name="cover" content="cover-image"/>` element is emitted
unconditionally. -/
def generate_content_opf (cfg : Config) (fs : String → Bool)
    (chapters : List Chapter) : Opf :=
  { dcTitle := escape_xml cfg.title
    dcCreator := escape_xml cfg.author
    dcLanguage := cfg.language
    dcPublisher := escape_xml (cfg.publisher.getD cfg.author)
    metaCoverContent := "cover-image"
    manifest := [navItem, cssItem]
      ++ (if coverPresent cfg fs then [coverImageItem cfg, coverDocItem] else [])
      ++ chapters.map (fun ch =>
          { id := ch.id, href := ch.href,
            mediaType := "application/xhtml+xml" })
    spine := (if coverConfigured cfg then ["cover"] else [])
      ++ chapters.map Chapter.id }

/-- The generated navigation document, as structured data: the table of
contents (href, escaped label) and the landmarks (epub:type, href, label),
in document order. -/
structure NavDoc where
  toc : List (String × String)
  landmarks : List (String × String × String)
  deriving DecidableEq, Repr

/-- Model of `_generate_nav_xhtml`. -/
def generate_nav_xhtml (cfg : Config) (chapters : List Chapter) : NavDoc :=
  { toc := (if coverConfigured cfg then [("Text/cover.xhtml", "Cover")] else [])
      ++ chapters.map (fun ch => (ch.href, escape_xml ch.title))
    landmarks := (if coverConfigured cfg then
        [("cover", "Text/cover.xhtml", "Cover")] else [])
      ++ [("toc", "nav.xhtml", "Table of Contents")]
      ++ (match chapters with
          | [] => []
          | ch :: _ => [("bodymatter", ch.href, "Start Reading")]) }

/-- Model of `_copy_assets`: the staging-tree files created for the cover
(copied
image and generated cover.xhtml), when a cover is configured and exists. -/
def copy_assets (cfg : Config) (fs : String → Bool) : List String :=
  if coverPresent cfg fs then
    ["OEBPS/Images/cover" ++ pathSuffix (cfg.cover.getD ""),
     "OEBPS/Text/cover.xhtml"]
  else []

/-! ## markdown_to_epub.py : mimetype and packaging -/

/-- The exact content `_generate_mimetype` writes (opened with
`newline=''` and ascii encoding, so the bytes are exactly these
characters, with no trailing newline). -/
def mimetypeContent : String := "application/epub+zip"

/-- Zip compression method of an archive entry. -/
inductive CompressType where
  | stored
  | deflated
  deriving DecidableEq, Repr

/-- An entry of the produced zip archive, in order of addition. -/
structure ZipEntry where
  arcname : String
  compress : CompressType
  deriving DecidableEq, Repr

/-- Model of `_package_epub` over the staged relative file paths (in
`os.walk`
order): the mimetype is written first with `ZIP_STORED`; every other file
is added with `ZIP_DEFLATED`, skipping any file whose basename is
`mimetype`. -/
def package_epub (stagedFiles : List String) : List ZipEntry :=
  { arcname := "mimetype", compress := .stored } ::
    (stagedFiles.filter (fun f => decide ((⟨baseName f⟩ : String) ≠ "mimetype"))).map
      (fun f => { arcname := f, compress := .deflated })

/-! ## markdown_to_epub.py : consolidate mode -/

/-- The chapter separator of consolidate mode. -/
def sepData : List Char := "\n\n---\n\n".data

/-- The consolidation loop: `for idx, f in enumerate(files, 1)`, appending
the separator before every chapter but the first, each chapter content
stripped, then `''.join(...)`. -/
def consolidateJoin (contents : List (List Char)) : List Char :=
  (contents.foldl
    (fun (acc : List Char × Nat) c =>
      (acc.1 ++ (if acc.2 > 1 then sepData else []) ++ pyStrip c, acc.2 + 1))
    ([], 1)).1

/-- Modelled from the spec: "a single Markdown file, chapters joined by
`\n\n---\n\n`" — the chapter file contents (as read, unmodified) joined by
the separator.  This definition exists to be compared with the code's
`consolidateJoin`, which strips each chapter first. -/
def specConsolidateJoin (contents : List String) : String :=
  String.intercalate "\n\n---\n\n" contents

/-- Outcome of `_consolidate_chapters`. -/
inductive ConsolidateResult where
  | ok (text : String)
  | attrError
  | noChapters
  deriving DecidableEq, Repr

/-- Model of `_consolidate_chapters`: discovery (identical to
`_process_chapters`)
followed by the consolidation loop. -/
def consolidate_chapters (listing : List String)
    (contentOf : String → String) : ConsolidateResult :=
  match discoverChapters listing with
  | .ok files => .ok ⟨consolidateJoin (files.map (fun f => (contentOf f).data))⟩
  | .attrError => .attrError
  | .noChapters => .noChapters

/-! ## markdown_to_epub.py : the build sequence -/

/-- Observable filesystem effects of `build()` (EPUB mode), in program
order. -/
inductive BuildStep where
  | createStructure
  | writeChapterXhtml (filename : String)
  | copyCoverImage (dest : String)
  | writeCoverXhtml
  | writeMimetype
  | writeContainerXml
  | writeContentOpf
  | writeNavXhtml
  | writeCss
  | writeOutput (path : String)
  | cleanupTemp
  deriving DecidableEq, Repr

/-- Termination status of `build()` (EPUB mode). -/
inductive BuildOutcome where
  | success
  | noChaptersError (dir : String)
  | attributeError
  deriving DecidableEq, Repr

/-- Model of `build()` in EPUB mode: `_create_structure` runs first
(creating the
staging directory tree), then `_process_chapters` discovers chapters —
raising `ValueError` when discovery is empty, which aborts the run before
any staging file is written and before any output is produced.  On
success the chapter files, cover assets, mimetype, container.xml,
content.opf, nav.xhtml and stylesheet are written, and unless
`no_package` is set the archive is written and the staging tree removed. -/
def buildEpub (cfg : Config) (fs : String → Bool) (listing : List String)
    (contentOf : String → String) : List BuildStep × BuildOutcome :=
  match discoverChapters listing with
  | .attrError => ([.createStructure], .attributeError)
  | .noChapters => ([.createStructure], .noChaptersError cfg.inputDir)
  | .ok files =>
    let chapters := process_chapters (files.map contentOf)
    (([BuildStep.createStructure]
      ++ chapters.map (fun ch => BuildStep.writeChapterXhtml ch.filename)
      ++ (copy_assets cfg fs).map (fun d =>
            if d = "OEBPS/Text/cover.xhtml" then BuildStep.writeCoverXhtml
            else BuildStep.copyCoverImage d)
      ++ [.writeMimetype, .writeContainerXml, .writeContentOpf,
          .writeNavXhtml, .writeCss]
      ++ (if cfg.noPackage then []
          else [BuildStep.writeOutput cfg.output, .cleanupTemp])),
     .success)

/-! ## Lemmas about `replaceAll` -/

/-- The fuel of `replaceAllF` is irrelevant as long as it bounds the length
of the list. -/
theorem replaceAllF_fuel_irrel (old new : List Char) :
    ∀ (f₁ f₂ : Nat) (s : List Char), s.length ≤ f₁ → s.length ≤ f₂ →
      replaceAllF old new f₁ s = replaceAllF old new f₂ s := by
  intro f₁
  induction f₁ with
  | zero =>
    intro f₂ s h1 _
    cases s with
    | nil => cases f₂ <;> rfl
    | cons c rest => simp at h1
  | succ f ih =>
    intro f₂ s h1 h2
    cases s with
    | nil => cases f₂ <;> rfl
    | cons c rest =>
      cases f₂ with
      | zero => simp at h2
      | succ f₂' =>
        simp only [replaceAllF]
        by_cases h : old ≠ [] ∧ old.isPrefixOf (c :: rest)
        · simp only [if_pos h]
          congr 1
          have hol : 0 < old.length := List.length_pos.mpr h.1
          have hb : ((c :: rest).drop old.length).length ≤ rest.length := by
            simp only [List.length_drop, List.length_cons]
            omega
          simp only [List.length_cons] at h1 h2
          exact ih _ _ (by omega) (by omega)
        · simp only [if_neg h]
          congr 1
          simp only [List.length_cons] at h1 h2
          exact ih _ _ (by omega) (by omega)

theorem replaceAll_nil (old new : List Char) : replaceAll old new [] = [] := rfl

theorem replaceAll_cons_pos {old : List Char} (new : List Char) {c : Char}
    {rest : List Char} (h1 : old ≠ []) (h2 : old.isPrefixOf (c :: rest)) :
    replaceAll old new (c :: rest)
      = new ++ replaceAll old new ((c :: rest).drop old.length) := by
  unfold replaceAll
  simp only [List.length_cons, replaceAllF, if_pos (And.intro h1 h2)]
  congr 1
  apply replaceAllF_fuel_irrel
  · have hol : 0 < old.length := List.length_pos.mpr h1
    simp only [List.length_drop, List.length_cons]
    omega
  · exact Nat.le_refl _

theorem replaceAll_cons_neg {old : List Char} (new : List Char) {c : Char}
    {rest : List Char} (h : ¬(old ≠ [] ∧ old.isPrefixOf (c :: rest))) :
    replaceAll old new (c :: rest) = c :: replaceAll old new rest := by
  unfold replaceAll
  simp only [List.length_cons, replaceAllF, if_neg h]

/-- The fuel of `grabTitleF` is irrelevant as long as it bounds the length
of the list. -/
theorem grabTitleF_fuel_irrel :
    ∀ (f₁ f₂ : Nat) (s : List Char), s.length ≤ f₁ → s.length ≤ f₂ →
      grabTitleF f₁ s = grabTitleF f₂ s := by
  intro f₁
  induction f₁ with
  | zero =>
    intro f₂ s h1 _
    cases s with
    | nil => cases f₂ <;> rfl
    | cons c rest => simp at h1
  | succ f ih =>
    intro f₂ s h1 h2
    cases s with
    | nil => cases f₂ <;> rfl
    | cons c rest =>
      cases f₂ with
      | zero => simp at h2
      | succ f₂' =>
        simp only [grabTitleF]
        cases hm : (if c = '#' then hashMatch rest else none) with
        | some t => rfl
        | none =>
          have hb : (((c :: rest).dropWhile (fun d => decide (d ≠ '\n'))).drop 1).length
              ≤ rest.length := by
            have hd : ((c :: rest).dropWhile (fun d => decide (d ≠ '\n'))).length
                ≤ (c :: rest).length := (List.dropWhile_suffix _).length_le
            simp only [List.length_drop, List.length_cons] at hd ⊢
            omega
          simp only [List.length_cons] at h1 h2
          exact ih _ _ (by omega) (by omega)

theorem grabTitle_nil : grabTitle [] = none := rfl

theorem grabTitle_cons (c : Char) (rest : List Char) :
    grabTitle (c :: rest) =
      match (if c = '#' then hashMatch rest else none) with
      | some t => some t
      | none =>
        grabTitle (((c :: rest).dropWhile (fun d => decide (d ≠ '\n'))).drop 1) := by
  unfold grabTitle
  simp only [List.length_cons, grabTitleF]
  cases hm : (if c = '#' then hashMatch rest else none) with
  | some t => rfl
  | none =>
    have hb : (((c :: rest).dropWhile (fun d => decide (d ≠ '\n'))).drop 1).length
        ≤ rest.length := by
      have hd : ((c :: rest).dropWhile (fun d => decide (d ≠ '\n'))).length
          ≤ (c :: rest).length := (List.dropWhile_suffix _).length_le
      simp only [List.length_drop, List.length_cons] at hd ⊢
      omega
    exact grabTitleF_fuel_irrel _ _ _ (by omega) (Nat.le_refl _)

/-- Characters of `replaceAll old new s` come from `s` or from `new`. -/
theorem mem_of_mem_replaceAll {old new : List Char} {a : Char} :
    ∀ (s : List Char), a ∈ replaceAll old new s → a ∈ s ∨ a ∈ new
  | [] => by rw [replaceAll_nil]; simp
  | c :: rest => by
    intro ha
    by_cases h : old ≠ [] ∧ old.isPrefixOf (c :: rest)
    · rw [replaceAll_cons_pos new h.1 h.2] at ha
      rcases List.mem_append.mp ha with h1 | h2
      · exact Or.inr h1
      · rcases mem_of_mem_replaceAll _ h2 with h3 | h3
        · exact Or.inl (List.mem_of_mem_drop h3)
        · exact Or.inr h3
    · rw [replaceAll_cons_neg new h] at ha
      rcases List.mem_cons.mp ha with h1 | h2
      · exact Or.inl (h1 ▸ List.mem_cons_self _ _)
      · rcases mem_of_mem_replaceAll _ h2 with h3 | h3
        · exact Or.inl (List.mem_cons_of_mem _ h3)
        · exact Or.inr h3
termination_by s => s.length
decreasing_by
  · have h1 : 0 < old.length := List.length_pos.mpr h.1
    have h2 : old.length ≤ (c :: rest).length :=
      ( List.isPrefixOf_iff_prefix.mp h.2).length_le
    simp only [List.length_drop]
    simp at h2 ⊢
    omega
  · simp

theorem not_mem_replaceAll_keep {a : Char} {old new : List Char}
    (s : List Char) (h1 : a ∉ s) (h2 : a ∉ new) :
    a ∉ replaceAll old new s := fun h =>
  (mem_of_mem_replaceAll s h).elim h1 h2

/-- Replacing all occurrences of the single character `a` removes it for
good, provided the replacement text does not itself contain `a`. -/
theorem not_mem_replaceAll_single {a : Char} {new : List Char}
    (h : a ∉ new) : ∀ (s : List Char), a ∉ replaceAll [a] new s := by
  intro s
  induction s with
  | nil => rw [replaceAll_nil]; simp
  | cons c rest ih =>
    by_cases hc : c = a
    · subst hc
      have hp : List.isPrefixOf [c] (c :: rest) := by
        simp [ List.isPrefixOf_iff_prefix]
      rw [replaceAll_cons_pos new (by simp) hp]
      simp only [List.length_cons, List.length_nil, List.drop_succ_cons,
        List.drop_zero]
      intro hmem
      rcases List.mem_append.mp hmem with h1 | h2
      · exact h h1
      · exact ih h2
    · have hng : ¬(([a] : List Char) ≠ [] ∧
          List.isPrefixOf [a] (c :: rest)) := by
        rintro ⟨-, hpre⟩
        rcases List.isPrefixOf_iff_prefix.mp hpre with ⟨t, ht⟩
        simp at ht
        exact hc ht.1.symm
      rw [replaceAll_cons_neg new hng]
      intro hmem
      rcases List.mem_cons.mp hmem with h1 | h2
      · exact hc h1.symm
      · exact ih h2

/-- A list that contains no occurrence of `old` is unchanged by
`replaceAll old new`. -/
theorem replaceAll_eq_self {old new : List Char} :
    ∀ {s : List Char}, ¬ old <:+: s → replaceAll old new s = s := by
  intro s
  induction s with
  | nil => intro _; exact replaceAll_nil _ _
  | cons c rest ih =>
    intro hni
    have hne : old ≠ [] := by
      rintro rfl
      exact hni List.nil_infix
    have hnp : ¬ List.isPrefixOf old (c :: rest) := by
      intro hp
      exact hni ( List.isPrefixOf_iff_prefix.mp hp).isInfix
    rw [replaceAll_cons_neg new (by tauto)]
    have : ¬ old <:+: rest := fun h => hni (List.infix_cons h)
    rw [ih this]

/-- An occurrence of a single character as a contiguous substring is just
membership. -/
theorem singleton_infix_iff_mem {a : Char} {s : List Char} :
    [a] <:+: s ↔ a ∈ s := by
  constructor
  · rintro ⟨u, v, rfl⟩
    simp
  · intro h
    rcases List.append_of_mem h with ⟨u, v, rfl⟩
    exact ⟨u, v, by simp⟩

/-! ## Idempotence of fix_special_chars (C10) -/

/-- After replacing every literal backslash-`n` by a space, no occurrence of
backslash-`n` remains: the single-space replacement text cannot recombine
with its surroundings into a new occurrence. -/
theorem bsn_not_infix_replaceAll :
    ∀ (s : List Char), ¬ (bsn <:+: replaceAll bsn [' '] s)
  | [] => by
    rw [replaceAll_nil]
    intro h
    simpa [bsn] using h.length_le
  | c :: rest => by
    by_cases h : List.isPrefixOf bsn (c :: rest)
    · rw [replaceAll_cons_pos [' '] (by simp [bsn]) h]
      rcases List.isPrefixOf_iff_prefix.mp h with ⟨t, ht⟩
      have hdrop : (c :: rest).drop bsn.length = t := by
        rw [← ht]
        simp [bsn]
      rw [hdrop]
      intro hinf
      rcases List.infix_cons_iff.mp hinf with hpre | htail
      · rcases hpre with ⟨u, hu⟩
        simp [bsn] at hu
      · exact bsn_not_infix_replaceAll t htail
    · rw [replaceAll_cons_neg [' '] (by tauto)]
      intro hinf
      rcases List.infix_cons_iff.mp hinf with hpre | htail
      · rcases hpre with ⟨u, hu⟩
        have hu' : '\\' :: 'n' :: u = c :: replaceAll bsn [' '] rest := hu
        injection hu' with hc hu2
        obtain rfl : c = '\\' := hc.symm
        -- the replaced tail would have to start with 'n'
        have hhead := congrArg List.head? hu2
        cases rest with
        | nil => rw [replaceAll_nil] at hhead; simp at hhead
        | cons d rest₂ =>
          by_cases h2 : List.isPrefixOf bsn (d :: rest₂)
          · rw [replaceAll_cons_pos [' '] (by simp [bsn]) h2] at hhead
            simp at hhead
          · rw [replaceAll_cons_neg [' '] (by tauto)] at hhead
            simp at hhead
            obtain rfl : d = 'n' := hhead.symm
            exact h (by simp [bsn, List.isPrefixOf_iff_prefix])
      · exact bsn_not_infix_replaceAll rest htail
termination_by s => s.length
decreasing_by
  · have : (c :: rest).length = bsn.length + t.length := by
      rw [← ht]
      simp
    simp [bsn] at this ⊢
    omega
  · simp

/-- The nine single-character replacement sources are all absent from
`fixData l`, and so is the backslash-`n` sequence. -/
theorem fixData_sources_gone (l : List Char) :
    ldq ∉ fixData l ∧ rdq ∉ fixData l ∧ lsq ∉ fixData l ∧ rsq ∉ fixData l ∧
    mdash ∉ fixData l ∧ ndash ∉ fixData l ∧ hellip ∉ fixData l ∧
    nbsp ∉ fixData l ∧ bullet ∉ fixData l ∧ ¬ (bsn <:+: fixData l) := by
  unfold fixData
  refine ⟨?_, ?_, ?_, ?_, ?_, ?_, ?_, ?_, ?_, bsn_not_infix_replaceAll _⟩
  · iterate 9 refine not_mem_replaceAll_keep _ ?_ (by decide)
    exact not_mem_replaceAll_single (by decide) _
  · iterate 8 refine not_mem_replaceAll_keep _ ?_ (by decide)
    exact not_mem_replaceAll_single (by decide) _
  · iterate 7 refine not_mem_replaceAll_keep _ ?_ (by decide)
    exact not_mem_replaceAll_single (by decide) _
  · iterate 6 refine not_mem_replaceAll_keep _ ?_ (by decide)
    exact not_mem_replaceAll_single (by decide) _
  · iterate 5 refine not_mem_replaceAll_keep _ ?_ (by decide)
    exact not_mem_replaceAll_single (by decide) _
  · iterate 4 refine not_mem_replaceAll_keep _ ?_ (by decide)
    exact not_mem_replaceAll_single (by decide) _
  · iterate 3 refine not_mem_replaceAll_keep _ ?_ (by decide)
    exact not_mem_replaceAll_single (by decide) _
  · iterate 2 refine not_mem_replaceAll_keep _ ?_ (by decide)
    exact not_mem_replaceAll_single (by decide) _
  · iterate 1 refine not_mem_replaceAll_keep _ ?_ (by decide)
    exact not_mem_replaceAll_single (by decide) _

theorem fixData_idem (l : List Char) : fixData (fixData l) = fixData l := by
  obtain ⟨h1, h2, h3, h4, h5, h6, h7, h8, h9, h10⟩ := fixData_sources_gone l
  have g1 : ¬ ([ldq] <:+: fixData l) := fun h => h1 (singleton_infix_iff_mem.mp h)
  have g2 : ¬ ([rdq] <:+: fixData l) := fun h => h2 (singleton_infix_iff_mem.mp h)
  have g3 : ¬ ([lsq] <:+: fixData l) := fun h => h3 (singleton_infix_iff_mem.mp h)
  have g4 : ¬ ([rsq] <:+: fixData l) := fun h => h4 (singleton_infix_iff_mem.mp h)
  have g5 : ¬ ([mdash] <:+: fixData l) := fun h => h5 (singleton_infix_iff_mem.mp h)
  have g6 : ¬ ([ndash] <:+: fixData l) := fun h => h6 (singleton_infix_iff_mem.mp h)
  have g7 : ¬ ([hellip] <:+: fixData l) := fun h => h7 (singleton_infix_iff_mem.mp h)
  have g8 : ¬ ([nbsp] <:+: fixData l) := fun h => h8 (singleton_infix_iff_mem.mp h)
  have g9 : ¬ ([bullet] <:+: fixData l) := fun h => h9 (singleton_infix_iff_mem.mp h)
  conv_lhs => rw [fixData]
  rw [replaceAll_eq_self g1, replaceAll_eq_self g2, replaceAll_eq_self g3,
    replaceAll_eq_self g4, replaceAll_eq_self g5, replaceAll_eq_self g6,
    replaceAll_eq_self g7, replaceAll_eq_self g8, replaceAll_eq_self g9,
    replaceAll_eq_self h10]

/-- C10: the special-character cleanup transformation is idempotent: for
every input string `s`, `fix_special_chars (fix_special_chars s) =
fix_special_chars s`, because no replacement target contains or creates any
replacement source (neither the curly quotes, dashes, ellipsis,
non-breaking space and bullet, nor the literal backslash-n sequence). -/
theorem claim_C10_fix_special_chars_idempotent (s : String) :
    fix_special_chars (fix_special_chars s) = fix_special_chars s := by
  have hdata : ∀ (l : List Char), (⟨l⟩ : String).data = l := fun _ => rfl
  have hdef : ∀ (u : String), fix_special_chars u = ⟨fixData u.data⟩ :=
    fun u => rfl
  rw [hdef (fix_special_chars s), hdef s, hdata]
  exact congrArg String.mk (fixData_idem s.data)

/-- C9: the discovery sort key is partial: `chapter-draft.md` matches the
glob `chapter-*.md` but the regex `chapter-(\d+)` finds no match in it, so
the unguarded `.group(1)` raises `AttributeError`; discovery neither skips
the file nor reports the no-chapters error. -/
theorem claim_C9_sort_key_attribute_error :
    matchesGlobPat chapterPfx mdSfx "chapter-draft.md" = true ∧
    chapterKey chapterPfx "chapter-draft.md" = none ∧
    discoverChapters ["chapter-draft.md"] = DiscResult.attrError ∧
    DiscResult.attrError ≠ DiscResult.noChapters ∧
    (∀ files, DiscResult.attrError ≠ DiscResult.ok files) := by
  refine ⟨by decide, by decide, by decide, by decide, fun files h => by cases h⟩

/-- C4: in every packaged archive the mimetype content is exactly the
ASCII bytes `application/epub+zip` with no surrounding whitespace, the
mimetype entry is the first entry, it is stored uncompressed, and every
other entry is deflated. -/
theorem claim_C4_mimetype_first_stored_rest_deflated
    (stagedFiles : List String) :
    mimetypeContent = "application/epub+zip" ∧
    mimetypeContent.data.all
      (fun c => decide (c.toNat < 128) && !isPySpace c) = true ∧
    (package_epub stagedFiles).head? =
      some { arcname := "mimetype", compress := CompressType.stored } ∧
    ∀ e ∈ (package_epub stagedFiles).tail, e.compress = CompressType.deflated := by
  refine ⟨rfl, by decide, rfl, ?_⟩
  intro e he
  simp only [package_epub, List.tail_cons, List.mem_map] at he
  obtain ⟨f, -, rfl⟩ := he
  rfl

/-- C1 (evaluation of the code at the failing input): with a cover path
configured but the cover file missing, the generated spine contains the
itemref idref `cover` while no manifest item has id `cover` — the spine
idref dangles, violating the cross-reference invariant.  The manifest
(and `_copy_assets`) guard on `Path(cover).exists()`; the spine guards
only on the configuration. -/
theorem claim_C1_spine_idref_dangles_when_cover_missing :
    ("cover" ∈ (generate_content_opf cfgMissingCover fsNone []).spine) ∧
    ("cover" ∉ (generate_content_opf cfgMissingCover fsNone
        []).manifest.map ManifestItem.id) := by decide

/-- C2 (counterexample): with no cover configured, the generated package
document still contains the legacy cover metadata reference
`<meta name="cover" content="cover-image"/>` — a cover artifact in the
output — so the claim that no cover artifact appears anywhere is false as
stated. -/
theorem claim_C2_counterexample_meta_cover_always_present :
    cfgPlain.cover = none ∧
    (generate_content_opf cfgPlain fsNone []).metaCoverContent
      = "cover-image" ∧
    "cover-image" ∉ (generate_content_opf cfgPlain fsNone
        []).manifest.map ManifestItem.id := by decide

/-- C5 (counterexample): on an empty chapter directory the run does fail
with the no-chapters error and writes no output, but the staging directory
tree has already been created: `_create_structure` runs before
`_process_chapters`, so the failure does not occur before staging begins. -/
theorem claim_C5_counterexample_structure_created_before_failure :
    buildEpub cfgPlain fsNone [] (fun _ => "")
      = ([BuildStep.createStructure],
         BuildOutcome.noChaptersError "manuscript") ∧
    BuildStep.createStructure ∈ (buildEpub cfgPlain fsNone [] (fun _ => "")).1
    := by decide

/-- C8 (counterexample): consolidate mode strips each chapter before
joining, so for a chapter file whose content ends in a newline the output
differs from the chapter contents joined by the separator. -/
theorem claim_C8_counterexample_contents_are_stripped :
    consolidate_chapters ["chapter-1.md"] (fun _ => "hello\n")
      = ConsolidateResult.ok "hello" ∧
    specConsolidateJoin ["hello\n"] = "hello\n" ∧
    ("hello" : String) ≠ "hello\n" := by decide

/-- C5 (amended): when chapter discovery yields zero files under both the
`chapter-` pattern and the `chap-` fallback pattern, the run fails with
the no-chapters error and performs no filesystem effect other than the
creation of the staging directory tree (which `_create_structure` has
already done before discovery runs): no staging file, no output file. -/
theorem claim_C5_amended_no_chapters_aborts_after_create_structure
    (cfg : Config) (fs : String → Bool) (listing : List String)
    (contentOf : String → String)
    (h1 : globFiles chapterPfx listing = [])
    (h2 : globFiles chapPfx listing = []) :
    buildEpub cfg fs listing contentOf
      = ([BuildStep.createStructure],
         BuildOutcome.noChaptersError cfg.inputDir) := by
  have hd : discoverChapters listing = DiscResult.noChapters := by
    unfold discoverChapters
    rw [h1, h2]
    rfl
  unfold buildEpub
  rw [hd]

/-- Witness for the C5 amended claim at a concrete input. -/
theorem claim_C5_amended_witness :
    buildEpub cfgPlain fsNone ["notes.txt", "README"] (fun _ => "")
      = ([BuildStep.createStructure],
         BuildOutcome.noChaptersError "manuscript") :=
  claim_C5_amended_no_chapters_aborts_after_create_structure cfgPlain fsNone
    ["notes.txt", "README"] (fun _ => "") (by decide) (by decide)

/-- The consolidation fold, once at least one chapter has been emitted,
appends separator-plus-stripped-chapter for every remaining chapter. -/
theorem consolidateJoin_loop (cs : List (List Char)) :
    ∀ (a : List Char) (k : Nat), k > 1 →
      (cs.foldl
        (fun (acc : List Char × Nat) c =>
          (acc.1 ++ (if acc.2 > 1 then sepData else []) ++ pyStrip c,
           acc.2 + 1)) (a, k)).1
      = a ++ cs.flatMap (fun c => sepData ++ pyStrip c) := by
  induction cs with
  | nil => intro a k _; simp
  | cons c cs ih =>
    intro a k hk
    simp only [List.foldl_cons, if_pos hk]
    rw [ih _ (k + 1) (by omega)]
    simp [List.append_assoc]

/-- Writing `List.intercalate` as first chunk plus separator-prefixed
chunks. -/
theorem intercalate_eq_cons_flatMap (sep : List Char) (x : List Char)
    (l : List (List Char)) :
    List.intercalate sep (x :: l) = x ++ l.flatMap (fun y => sep ++ y) := by
  induction l generalizing x with
  | nil => simp [List.intercalate, List.intersperse]
  | cons y l ih =>
    have hI : (List.intersperse sep (y :: l)).flatten
        = List.intercalate sep (y :: l) := rfl
    rw [List.intercalate, List.intersperse_cons_cons]
    simp only [List.flatten_cons]
    rw [hI, ih y]
    simp [List.append_assoc]

/-- The consolidation loop computes the separator-join of the stripped
chapter contents. -/
theorem consolidateJoin_eq_intercalate (cs : List (List Char)) :
    consolidateJoin cs = List.intercalate sepData (cs.map pyStrip) := by
  cases cs with
  | nil => rfl
  | cons c cs =>
    unfold consolidateJoin
    simp only [List.foldl_cons, gt_iff_lt, Nat.lt_irrefl, if_neg,
      List.nil_append]
    rw [consolidateJoin_loop cs _ 2 (by omega)]
    rw [List.map_cons, intercalate_eq_cons_flatMap]
    simp [List.flatMap_map]

/-- C8 (amended): in consolidate mode, for every discovered chapter
sequence, the output equals the chapter contents each stripped of leading
and trailing whitespace, in discovery order, joined by the separator
`\n\n---\n\n`. -/
theorem claim_C8_amended_consolidate_joins_stripped_contents
    (listing : List String) (contentOf : String → String)
    (files : List String)
    (h : discoverChapters listing = DiscResult.ok files) :
    consolidate_chapters listing contentOf
      = ConsolidateResult.ok
          ⟨List.intercalate sepData
            ((files.map (fun f => (contentOf f).data)).map pyStrip)⟩ := by
  unfold consolidate_chapters
  rw [h]
  show ConsolidateResult.ok
      ⟨consolidateJoin (files.map (fun f => (contentOf f).data))⟩ = _
  rw [consolidateJoin_eq_intercalate]

/-- Witness for the C8 amended claim at a concrete input. -/
theorem claim_C8_amended_witness :
    consolidate_chapters ["chapter-2.md", "chapter-1.md"]
      (fun f => if f = "chapter-1.md" then " one \n" else "two")
      = ConsolidateResult.ok "one\n\n---\n\ntwo" := by
  have h := claim_C8_amended_consolidate_joins_stripped_contents
    ["chapter-2.md", "chapter-1.md"]
    (fun f => if f = "chapter-1.md" then " one \n" else "two")
    ["chapter-1.md", "chapter-2.md"] (by decide)
  rw [h]
  decide

/-- C6 (counterexample): the whitespace of the title regex `^#\s+(.+)$` may
cross line boundaries: in the document `"#\nFoo"` no single line matches
the level-1 heading pattern (so the claim requires the synthesized title
`Chapter 1`), yet the code extracts the title `Foo` from the following
line. -/
theorem claim_C6_counterexample_match_crosses_lines :
    extractTitle "#\nFoo" 1 = "Foo" ∧
    specFirstHeadingTitle "#\nFoo" 1 = "Chapter 1" ∧
    ("Foo" : String) ≠ "Chapter 1" := by decide

/-- Applying `takeWhile (· ≠ '\n')` to a newline-free block followed by a
newline yields the block itself. -/
theorem takeWhile_ne_nl_append (xs ys : List Char) (h : '\n' ∉ xs) :
    (xs ++ '\n' :: ys).takeWhile (fun d => decide (d ≠ '\n')) = xs := by
  induction xs with
  | nil => simp
  | cons a xs ih =>
    have ha : a ≠ '\n' := fun hq => h (hq ▸ List.mem_cons_self _ _)
    simp only [List.cons_append, List.takeWhile_cons, decide_eq_true_eq]
    rw [if_pos ha, ih (fun hm => h (List.mem_cons_of_mem _ hm))]

/-- C6 (amended): the display title is the group captured by the first
multiline match of `^#\s+(.+)$`, whose `\s+` may cross line boundaries; in
particular, a document whose first line is `#`, one space, then non-empty
newline-free text whose first character is not whitespace, yields exactly
that text, and a document in which the regex finds no match yields the
synthesized title `Chapter <idx>`. -/
theorem claim_C6_amended_title_is_first_regex_group (c : Char)
    (t r : List Char) (idx : Nat)
    (h1 : isPySpace c = false) (h2 : '\n' ∉ c :: t) :
    extractTitle ⟨'#' :: ' ' :: ((c :: t) ++ '\n' :: r)⟩ idx = ⟨c :: t⟩ ∧
    (∀ (content : String) (j : Nat), grabTitle content.data = none →
      extractTitle content j = "Chapter " ++ toString j) := by
  constructor
  · have hdata : ∀ (l : List Char), (⟨l⟩ : String).data = l := fun _ => rfl
    have hmatch : hashMatch (' ' :: ((c :: t) ++ '\n' :: r)) = some (c :: t) := by
      unfold hashMatch
      have hw : (' ' :: ((c :: t) ++ '\n' :: r)).takeWhile isPySpace = [' '] := by
        simp only [List.takeWhile_cons, List.cons_append]
        rw [if_pos (by decide), if_neg (by simp [h1])]
      rw [hw]
      simp only [List.isEmpty_cons, List.length_cons, List.length_nil,
        List.drop_succ_cons, List.drop_zero]
      rw [takeWhile_ne_nl_append _ _ h2]
      rfl
    have hgrab : grabTitle ('#' :: ' ' :: ((c :: t) ++ '\n' :: r))
        = some (c :: t) := by
      rw [grabTitle_cons]
      rw [if_pos rfl, hmatch]
    unfold extractTitle
    rw [hdata, hgrab]
  · intro content j hnone
    unfold extractTitle
    rw [hnone]

/-- Witness for the C6 amended claim at concrete inputs. -/
theorem claim_C6_amended_witness :
    extractTitle ⟨'#' :: ' ' :: (['F', 'o', 'o'] ++ '\n' :: "body".data)⟩ 2
      = ⟨['F', 'o', 'o']⟩ ∧
    extractTitle "plain text only" 3 = "Chapter 3" := by
  have h := claim_C6_amended_title_is_first_regex_group 'F' ['o', 'o']
    "body".data 2 (by decide) (by decide)
  exact ⟨h.1, h.2 "plain text only" 3 (by decide)⟩

/-- A chapter manifest id (`chap` plus the padded index) is never the
cover document id. -/
theorem chap_id_ne_cover (n : Nat) : ("chap" ++ pad2 n : String) ≠ "cover" := by
  intro h
  have h2 := congrArg String.data h
  simp only [String.data_append] at h2
  simp at h2

/-- A chapter manifest id is never the cover image id. -/
theorem chap_id_ne_cover_image (n : Nat) :
    ("chap" ++ pad2 n : String) ≠ "cover-image" := by
  intro h
  have h2 := congrArg String.data h
  simp only [String.data_append] at h2
  simp at h2

/-- Every chapter record produced by `_process_chapters` has id `chap`
plus the padded 1-based index. -/
theorem process_chapters_id (contents : List String) :
    ∀ ch ∈ process_chapters contents, ∃ n, ch.id = "chap" ++ pad2 n := by
  intro ch hch
  simp only [process_chapters, List.mem_map] at hch
  obtain ⟨p, hp, rfl⟩ := hch
  exact ⟨p.1, rfl⟩

/-- C2 (amended): when a cover path is configured and the file exists, the
manifest contains exactly one `cover-image` item and the spine's first
itemref is the cover document; when no cover is configured, no cover
manifest item, cover spine entry, cover navigation entry or cover staging
file appears — but the legacy metadata cover reference
`<meta name="cover" content="cover-image"/>` is emitted unconditionally,
cover or not. -/
theorem claim_C2_amended_cover_artifacts (cfg : Config) (fs : String → Bool)
    (contents : List String) :
    (coverPresent cfg fs = true →
      ((generate_content_opf cfg fs (process_chapters contents)).manifest.filter
          (fun it => decide (it.id = "cover-image"))).length = 1 ∧
      (generate_content_opf cfg fs (process_chapters contents)).spine.head?
        = some "cover") ∧
    (coverConfigured cfg = false →
      (∀ it ∈ (generate_content_opf cfg fs (process_chapters contents)).manifest,
        it.id ≠ "cover" ∧ it.id ≠ "cover-image") ∧
      "cover" ∉ (generate_content_opf cfg fs (process_chapters contents)).spine ∧
      (generate_nav_xhtml cfg (process_chapters contents)).toc
        = (process_chapters contents).map (fun ch => (ch.href, escape_xml ch.title)) ∧
      (generate_nav_xhtml cfg (process_chapters contents)).landmarks.all
        (fun e => decide (e.1 ≠ "cover")) = true ∧
      copy_assets cfg fs = [] ∧
      (generate_content_opf cfg fs
        (process_chapters contents)).metaCoverContent = "cover-image") := by
  have hchne : ∀ ch ∈ process_chapters contents,
      ch.id ≠ "cover" ∧ ch.id ≠ "cover-image" := by
    intro ch hch
    obtain ⟨n, hn⟩ := process_chapters_id contents ch hch
    exact ⟨hn ▸ chap_id_ne_cover n, hn ▸ chap_id_ne_cover_image n⟩
  have hfch : ((process_chapters contents).map (fun ch =>
      ({ id := ch.id, href := ch.href,
         mediaType := "application/xhtml+xml" } : ManifestItem))).filter
      (fun it => decide (it.id = "cover-image")) = [] := by
    rw [List.filter_eq_nil_iff]
    intro it hit
    simp only [List.mem_map] at hit
    obtain ⟨ch, hch, rfl⟩ := hit
    simpa using (hchne ch hch).2
  constructor
  · intro hp
    have hc : coverConfigured cfg = true := by
      unfold coverPresent at hp
      simp only [Bool.and_eq_true] at hp
      exact hp.1
    constructor
    · simp only [generate_content_opf, hp, if_pos]
      rw [List.filter_append, List.filter_append, hfch]
      simp [navItem, cssItem, coverImageItem, coverDocItem]
    · simp only [generate_content_opf, hc, if_pos]
      rfl
  · intro hnc
    have hp : coverPresent cfg fs = false := by
      unfold coverPresent
      rw [hnc, Bool.false_and]
    refine ⟨?_, ?_, ?_, ?_, ?_, rfl⟩
    · intro it hit
      simp only [generate_content_opf, hp] at hit
      simp only [Bool.false_eq_true, if_false, List.nil_append,
        List.cons_append, List.mem_cons, List.mem_map] at hit
      rcases hit with rfl | hit
      · exact ⟨by decide, by decide⟩
      rcases hit with rfl | hit
      · exact ⟨by decide, by decide⟩
      rcases hit with ⟨ch, hch, rfl⟩
      simpa using hchne ch hch
    · simp only [generate_content_opf, hnc]
      simp only [Bool.false_eq_true, if_false, List.nil_append,
        List.mem_map, not_exists]
      intro ch hch
      exact (hchne ch hch.1).1 hch.2
    · simp [generate_nav_xhtml, hnc]
    · cases hpc : process_chapters contents with
      | nil => simp [generate_nav_xhtml, hnc, hpc]
      | cons ch chs => simp [generate_nav_xhtml, hnc, hpc]
    · simp [copy_assets, hp]

/-- Witness for the C2 amended claim at concrete inputs. -/
theorem claim_C2_amended_witness :
    ((generate_content_opf cfgWithCover fsAll
        (process_chapters ["# Hi"])).manifest.filter
      (fun it => decide (it.id = "cover-image"))).length = 1 ∧
    (generate_content_opf cfgWithCover fsAll
        (process_chapters ["# Hi"])).spine.head? = some "cover" ∧
    copy_assets cfgPlain fsNone = [] := by
  have h1 := claim_C2_amended_cover_artifacts cfgWithCover fsAll ["# Hi"]
  have h2 := claim_C2_amended_cover_artifacts cfgPlain fsNone ["# Hi"]
  exact ⟨(h1.1 (by decide)).1, (h1.1 (by decide)).2,
    (h2.2 (by decide)).2.2.2.2.1⟩

/-! ## XML escaping (C7) -/

theorem replaceAll_single_cons (a : Char) (t : List Char) (c : Char)
    (l : List Char) :
    replaceAll [a] t (c :: l)
      = (if c = a then t else [c]) ++ replaceAll [a] t l := by
  by_cases hc : c = a
  · subst hc
    rw [replaceAll_cons_pos t (by simp) (by simp [ List.isPrefixOf_iff_prefix])]
    simp
  · have hng : ¬((([a] : List Char) ≠ []) ∧ List.isPrefixOf [a] (c :: l)) := by
      rintro ⟨-, hpre⟩
      rcases List.isPrefixOf_iff_prefix.mp hpre with ⟨u, hu⟩
      simp at hu
      exact hc hu.1.symm
    rw [replaceAll_cons_neg t hng]
    simp [hc]

theorem replaceAll_single_eq_flatMap (a : Char) (t : List Char)
    (l : List Char) :
    replaceAll [a] t l = l.flatMap (fun c => if c = a then t else [c]) := by
  induction l with
  | nil => rw [replaceAll_nil]; rfl
  | cons c l ih => rw [replaceAll_single_cons, List.flatMap_cons, ih]

/-- The function `_escape_xml` acts character by character. -/
theorem escapeXmlData_eq_flatMap (l : List Char) :
    escapeXmlData l = l.flatMap escChar := by
  unfold escapeXmlData
  rw [replaceAll_single_eq_flatMap, replaceAll_single_eq_flatMap,
    replaceAll_single_eq_flatMap, replaceAll_single_eq_flatMap,
    replaceAll_single_eq_flatMap]
  rw [List.flatMap_assoc, List.flatMap_assoc, List.flatMap_assoc,
    List.flatMap_assoc]
  congr 1
  funext c
  by_cases h1 : c = '&'
  · subst h1; decide
  by_cases h2 : c = '<'
  · subst h2; decide
  by_cases h3 : c = '>'
  · subst h3; decide
  by_cases h4 : c = '"'
  · subst h4; decide
  by_cases h5 : c = '\''
  · subst h5; decide
  simp [escChar, h1, h2, h3, h4, h5]

theorem ampsEntityOnly_cons (c : Char) (rest : List Char) :
    ampsEntityOnly (c :: rest)
      = ((if c = '&' then entityTailAt rest else true) && ampsEntityOnly rest) :=
  rfl

/-- Prepending one escaped character preserves the raw-character freedom
and entity-only property of the remainder. -/
theorem escChar_append_props (c : Char) (rest : List Char) :
    noRawSpecials (escChar c ++ rest)
      = (noRawSpecials (escChar c) && noRawSpecials rest) ∧
    ampsEntityOnly (escChar c ++ rest) = ampsEntityOnly rest ∧
    noRawSpecials (escChar c) = true := by
  refine ⟨List.all_append, ?_, ?_⟩
  · by_cases h1 : c = '&'
    · subst h1
      simp [escChar, ampsEntityOnly_cons, entityTailAt, List.isPrefixOf]
    by_cases h2 : c = '<'
    · subst h2
      simp [escChar, ampsEntityOnly_cons, entityTailAt, List.isPrefixOf]
    by_cases h3 : c = '>'
    · subst h3
      simp [escChar, ampsEntityOnly_cons, entityTailAt, List.isPrefixOf]
    by_cases h4 : c = '"'
    · subst h4
      simp [escChar, ampsEntityOnly_cons, entityTailAt, List.isPrefixOf]
    by_cases h5 : c = '\''
    · subst h5
      simp [escChar, ampsEntityOnly_cons, entityTailAt, List.isPrefixOf]
    simp [escChar, h1, h2, h3, h4, h5, ampsEntityOnly_cons]
  · by_cases h1 : c = '&'
    · subst h1; decide
    by_cases h2 : c = '<'
    · subst h2; decide
    by_cases h3 : c = '>'
    · subst h3; decide
    by_cases h4 : c = '"'
    · subst h4; decide
    by_cases h5 : c = '\''
    · subst h5; decide
    simp [escChar, h1, h2, h3, h4, h5, noRawSpecials]

/-- The escaped form of any list has no raw `<`, `>`, `"`, `'`, and every
`&` in it starts one of the five entities. -/
theorem escChar_flatMap_props (l : List Char) :
    noRawSpecials (l.flatMap escChar) = true ∧
    ampsEntityOnly (l.flatMap escChar) = true := by
  induction l with
  | nil => exact ⟨rfl, rfl⟩
  | cons c l ih =>
    rw [List.flatMap_cons]
    obtain ⟨happ, hamps, hone⟩ := escChar_append_props c (l.flatMap escChar)
    exact ⟨by rw [happ, hone, ih.1]; rfl, by rw [hamps]; exact ih.2⟩

/-- C7: every user-supplied string injected into generated markup (title,
creator, publisher in content.opf; chapter titles in nav.xhtml) passes
through `_escape_xml`, whose output contains no raw `<`, `>`, `"` or `'`
and in which every `&` begins one of the five XML entities — so those
characters from user-supplied values appear only in escaped form. -/
theorem claim_C7_user_strings_escaped (cfg : Config) (fs : String → Bool)
    (chapters : List Chapter) :
    (∀ s : String, noRawSpecials (escape_xml s).data = true ∧
      ampsEntityOnly (escape_xml s).data = true) ∧
    (generate_content_opf cfg fs chapters).dcTitle = escape_xml cfg.title ∧
    (generate_content_opf cfg fs chapters).dcCreator = escape_xml cfg.author ∧
    (generate_content_opf cfg fs chapters).dcPublisher
      = escape_xml (cfg.publisher.getD cfg.author) ∧
    (generate_nav_xhtml cfg chapters).toc
      = (if coverConfigured cfg then [("Text/cover.xhtml", "Cover")] else [])
        ++ chapters.map (fun ch => (ch.href, escape_xml ch.title)) := by
  refine ⟨?_, rfl, rfl, rfl, rfl⟩
  intro s
  have hdef : ∀ (u : String), (escape_xml u).data = escapeXmlData u.data :=
    fun _ => rfl
  rw [hdef, escapeXmlData_eq_flatMap]
  exact escChar_flatMap_props s.data

/-! ## Chapter ordering (C3) -/

/-- Permuting the directory listing does not change which of the two
naming patterns discovery uses. -/
theorem activePfx_perm {L1 L2 : List String} (hp : L1.Perm L2) :
    activePfx L1 = activePfx L2 := by
  have h : (globFiles chapterPfx L1).Perm (globFiles chapterPfx L2) :=
    hp.filter _
  unfold activePfx
  by_cases hc : globFiles chapterPfx L1 = []
  · have hc2 : globFiles chapterPfx L2 = [] := (hc ▸ h).symm.eq_nil
    rw [if_pos hc, if_pos hc2]
  · have hc2 : globFiles chapterPfx L2 ≠ [] := by
      intro h0
      exact hc ((h0 ▸ h).eq_nil)
    rw [if_neg hc, if_neg hc2]

/-- Discovery, when the active pattern matches at least one file and every
matched file has a numeric key, sorts the matched files by that key —
under the primary `chapter-` pattern and the `chap-` fallback pattern
alike. -/
theorem discoverChapters_ok (L : List String)
    (hn : globFiles (activePfx L) L ≠ [])
    (ha : ∀ n ∈ globFiles (activePfx L) L,
      (chapterKey (activePfx L) n).isSome) :
    discoverChapters L
      = DiscResult.ok (sortByKey (activePfx L) (globFiles (activePfx L) L)) := by
  by_cases hc : globFiles chapterPfx L = []
  · have hap : activePfx L = chapPfx := by
      unfold activePfx
      rw [if_pos hc]
    rw [hap] at hn ha ⊢
    unfold discoverChapters
    have h0 : (globFiles chapterPfx L).isEmpty = true := by
      simp [List.isEmpty_iff, hc]
    have h1 : (globFiles chapPfx L).isEmpty = false := by
      simpa [List.isEmpty_iff] using hn
    have h2 : (globFiles chapPfx L).all
        (fun n => (chapterKey chapPfx n).isSome) = true := by
      rw [List.all_eq_true]
      exact ha
    simp only [h0, h1, h2, Bool.false_eq_true, if_false, if_true]
  · have hap : activePfx L = chapterPfx := by
      unfold activePfx
      rw [if_neg hc]
    rw [hap] at hn ha ⊢
    unfold discoverChapters
    have h1 : (globFiles chapterPfx L).isEmpty = false := by
      simpa [List.isEmpty_iff] using hn
    have h2 : (globFiles chapterPfx L).all
        (fun n => (chapterKey chapterPfx n).isSome) = true := by
      rw [List.all_eq_true]
      exact ha
    simp only [h1, h2, Bool.false_eq_true, if_false, if_true]

/-- The sorted file list is strictly ascending in the numeric key when the
keys of the input are pairwise distinct (any prefix). -/
theorem sortByKey_strict_sorted (p : List Char) (g : List String)
    (hnd : (g.map (keyD p)).Nodup) :
    (sortByKey p g).Pairwise (fun a b => keyD p a < keyD p b) := by
  haveI : IsTotal String (fun a b => keyD p a ≤ keyD p b) :=
    ⟨fun a b => Nat.le_total _ _⟩
  haveI : IsTrans String (fun a b => keyD p a ≤ keyD p b) :=
    ⟨fun _ _ _ hab hbc => Nat.le_trans hab hbc⟩
  have hsorted : (sortByKey p g).Pairwise
      (fun a b => keyD p a ≤ keyD p b) :=
    List.sorted_insertionSort _ g
  have hndp : ((sortByKey p g).map (keyD p)).Nodup := by
    have := (List.perm_insertionSort
      (fun a b => keyD p a ≤ keyD p b) g).map (keyD p)
    exact this.nodup_iff.mpr hnd
  have hkne : (sortByKey p g).Pairwise
      (fun a b => keyD p a ≠ keyD p b) :=
    List.pairwise_map.mp hndp
  exact (hsorted.and hkne).imp (fun h => Nat.lt_of_le_of_ne h.1 h.2)

/-- Sorting by pairwise-distinct numeric keys yields the same list for any
permutation of the input: the outcome is independent of listing order. -/
theorem sortByKey_perm_eq (p : List Char) {g1 g2 : List String}
    (hg : g1.Perm g2) (hnd : (g1.map (keyD p)).Nodup) :
    sortByKey p g1 = sortByKey p g2 := by
  haveI : IsAntisymm String (fun a b => keyD p a < keyD p b) :=
    ⟨fun _ _ h1 h2 => absurd h1 (Nat.lt_asymm h2)⟩
  have hnd2 : (g2.map (keyD p)).Nodup := (hg.map (keyD p)).nodup_iff.mp hnd
  apply List.eq_of_perm_of_sorted
    (r := fun a b => keyD p a < keyD p b)
  · exact (List.perm_insertionSort _ g1).trans
      (hg.trans (List.perm_insertionSort _ g2).symm)
  · exact sortByKey_strict_sorted p g1 hnd
  · exact sortByKey_strict_sorted p g2 hnd2

/-- The chapter ids recorded by `_process_chapters` are positional: the
i-th chapter (0-based) gets id `chap` plus the padded 1-based index, so
manifest items, spine itemrefs and navigation links enumerate the
discovered files in their given order. -/
theorem process_chapters_ids_positional (contents : List String) :
    (process_chapters contents).map Chapter.id
      = (List.range contents.length).map (fun i => "chap" ++ pad2 (i + 1)) := by
  unfold process_chapters
  rw [List.map_map]
  have h1 : (Chapter.id ∘ fun p : Nat × String => mkChapter p.1 p.2)
      = (fun n => "chap" ++ pad2 n) ∘ Prod.fst := rfl
  rw [h1, ← List.map_map, List.enumFrom_map_fst, List.range'_eq_map_range,
    List.map_map]
  apply List.map_congr_left
  intro i _
  simp [Nat.add_comm]

/-- Enumerating from 1 is a map over positional indices. -/
theorem enumFrom_eq_range_map (n : Nat) (l : List String) :
    List.enumFrom n l
      = (List.range l.length).map (fun i => (n + i, l.getD i "")) := by
  induction l generalizing n with
  | nil => rfl
  | cons x l ih =>
    rw [List.enumFrom_cons, ih (n + 1), List.length_cons,
      List.range_succ_eq_map, List.map_cons, List.map_map]
    congr 1
    apply List.map_congr_left
    intro i _
    simp only [Function.comp_apply, Nat.succ_eq_add_one,
      List.getD_cons_succ]
    rw [show n + (i + 1) = n + 1 + i from by omega]

/-- The chapter records of `_process_chapters` are positional: the i-th
chapter (0-based) is built from the i-th content with 1-based index
`i + 1`. -/
theorem process_chapters_eq_range (contents : List String) :
    process_chapters contents
      = (List.range contents.length).map
          (fun i => mkChapter (i + 1) (contents.getD i "")) := by
  unfold process_chapters
  rw [enumFrom_eq_range_map, List.map_map]
  apply List.map_congr_left
  intro i _
  simp only [Function.comp_apply]
  rw [Nat.add_comm 1 i]

/-- Reading the i-th element (with default) through a map, at an index
inside the list. -/
theorem getD_map_of_lt (f : String → String) :
    ∀ (l : List String) (i : Nat), i < l.length →
      (l.map f).getD i "" = f (l.getD i "") := by
  intro l
  induction l with
  | nil => intro i hi; simp at hi
  | cons x l ih =>
    intro i hi
    cases i with
    | zero => rfl
    | succ j =>
      simp only [List.map_cons, List.getD_cons_succ]
      exact ih j (by simpa using hi)

/-- C3: for every non-empty discovered chapter set — under the primary
`chapter-` pattern or the `chap-` fallback pattern, whichever discovery
uses for this directory — with all embedded integers present and pairwise
distinct, discovery produces the same file sequence for every listing
order of the directory, that sequence is sorted strictly increasingly by
the integer embedded in each filename, it is a permutation of the glob
matches, and the generated spine itemrefs, manifest chapter items and
navigation chapter links each enumerate exactly those files in that order
(after the fixed nav/css and optional cover entries). -/
theorem claim_C3_spine_manifest_nav_follow_numeric_order
    (L1 L2 : List String)
    (hne : globFiles (activePfx L1) L1 ≠ [])
    (hk : ∀ n ∈ globFiles (activePfx L1) L1,
      (chapterKey (activePfx L1) n).isSome)
    (hd : ((globFiles (activePfx L1) L1).map (keyD (activePfx L1))).Nodup)
    (hp : L1.Perm L2) :
    ∃ files,
      discoverChapters L1 = DiscResult.ok files ∧
      discoverChapters L2 = DiscResult.ok files ∧
      (files.map (keyD (activePfx L1))).Pairwise (· < ·) ∧
      files.Perm (globFiles (activePfx L1) L1) ∧
      ∀ (cfg : Config) (fsx : String → Bool) (contentOf : String → String),
        (generate_content_opf cfg fsx
            (process_chapters (files.map contentOf))).spine
          = (if coverConfigured cfg then ["cover"] else [])
            ++ (List.range files.length).map
                (fun i => "chap" ++ pad2 (i + 1)) ∧
        (generate_content_opf cfg fsx
            (process_chapters (files.map contentOf))).manifest
          = [navItem, cssItem]
            ++ (if coverPresent cfg fsx then
                  [coverImageItem cfg, coverDocItem] else [])
            ++ (List.range files.length).map (fun i =>
                ({ id := "chap" ++ pad2 (i + 1),
                   href := "Text/chapter-" ++ pad2 (i + 1) ++ ".xhtml",
                   mediaType := "application/xhtml+xml" } : ManifestItem)) ∧
        (generate_nav_xhtml cfg
            (process_chapters (files.map contentOf))).toc
          = (if coverConfigured cfg then
                [("Text/cover.xhtml", "Cover")] else [])
            ++ (List.range files.length).map (fun i =>
                ("Text/chapter-" ++ pad2 (i + 1) ++ ".xhtml",
                 escape_xml (extractTitle (contentOf (files.getD i ""))
                   (i + 1)))) := by
  have hap2 : activePfx L2 = activePfx L1 := (activePfx_perm hp).symm
  have hgperm : (globFiles (activePfx L1) L1).Perm
      (globFiles (activePfx L1) L2) := hp.filter _
  have hne2 : globFiles (activePfx L2) L2 ≠ [] := by
    rw [hap2]
    intro h0
    exact hne (by simpa [h0] using hgperm)
  have hk2 : ∀ n ∈ globFiles (activePfx L2) L2,
      (chapterKey (activePfx L2) n).isSome := by
    rw [hap2]
    exact fun n hn => hk n (hgperm.mem_iff.mpr hn)
  have heq : sortByKey (activePfx L1) (globFiles (activePfx L1) L1)
      = sortByKey (activePfx L1) (globFiles (activePfx L1) L2) :=
    sortByKey_perm_eq _ hgperm hd
  have hs1p : (sortByKey (activePfx L1)
      (globFiles (activePfx L1) L1)).Perm (globFiles (activePfx L1) L1) :=
    List.perm_insertionSort _ _
  refine ⟨sortByKey (activePfx L1) (globFiles (activePfx L1) L1),
    discoverChapters_ok L1 hne hk, ?_, ?_, hs1p, ?_⟩
  · rw [discoverChapters_ok L2 hne2 hk2, hap2, heq]
  · exact List.pairwise_map.mpr (sortByKey_strict_sorted _ _ hd)
  · intro cfg fsx contentOf
    refine ⟨?_, ?_, ?_⟩
    · show (if coverConfigured cfg then ["cover"] else [])
          ++ (process_chapters
            ((sortByKey (activePfx L1) (globFiles (activePfx L1) L1)).map
              contentOf)).map Chapter.id = _
      rw [process_chapters_ids_positional, List.length_map]
    · show [navItem, cssItem]
          ++ (if coverPresent cfg fsx then
                [coverImageItem cfg, coverDocItem] else [])
          ++ (process_chapters
            ((sortByKey (activePfx L1) (globFiles (activePfx L1) L1)).map
              contentOf)).map (fun ch =>
              ({ id := ch.id, href := ch.href,
                 mediaType := "application/xhtml+xml" } : ManifestItem)) = _
      rw [process_chapters_eq_range, List.map_map, List.length_map]
      apply congrArg
      apply congrArg
      rfl
    · show (if coverConfigured cfg then
            [("Text/cover.xhtml", "Cover")] else [])
          ++ (process_chapters
            ((sortByKey (activePfx L1) (globFiles (activePfx L1) L1)).map
              contentOf)).map (fun ch => (ch.href, escape_xml ch.title)) = _
      rw [process_chapters_eq_range, List.map_map, List.length_map]
      apply congrArg
      apply List.map_congr_left
      intro i hi
      have hilt : i <
          (sortByKey (activePfx L1) (globFiles (activePfx L1) L1)).length :=
        List.mem_range.mp hi
      have hget := getD_map_of_lt contentOf
        (sortByKey (activePfx L1) (globFiles (activePfx L1) L1)) i hilt
      simp only [Function.comp_apply]
      rw [hget]
      rfl

/-- Witness for C3; the first conjunct exercises the primary `chapter-`
pattern, the second the `chap-` fallback pattern, each at a pair of
listings that are permutations of each other. -/
theorem claim_C3_witness :
    (∃ files,
      discoverChapters ["chapter-2.md", "chapter-10.md", "chapter-1.md"]
        = DiscResult.ok files ∧
      discoverChapters ["chapter-1.md", "chapter-2.md", "chapter-10.md"]
        = DiscResult.ok files ∧
      (files.map (keyD
        (activePfx ["chapter-2.md", "chapter-10.md",
          "chapter-1.md"]))).Pairwise (· < ·) ∧
      files.Perm (globFiles
        (activePfx ["chapter-2.md", "chapter-10.md", "chapter-1.md"])
        ["chapter-2.md", "chapter-10.md", "chapter-1.md"]) ∧
      ∀ (cfg : Config) (fsx : String → Bool) (contentOf : String → String),
        (generate_content_opf cfg fsx
            (process_chapters (files.map contentOf))).spine
          = (if coverConfigured cfg then ["cover"] else [])
            ++ (List.range files.length).map
                (fun i => "chap" ++ pad2 (i + 1)) ∧
        (generate_content_opf cfg fsx
            (process_chapters (files.map contentOf))).manifest
          = [navItem, cssItem]
            ++ (if coverPresent cfg fsx then
                  [coverImageItem cfg, coverDocItem] else [])
            ++ (List.range files.length).map (fun i =>
                ({ id := "chap" ++ pad2 (i + 1),
                   href := "Text/chapter-" ++ pad2 (i + 1) ++ ".xhtml",
                   mediaType := "application/xhtml+xml" } : ManifestItem)) ∧
        (generate_nav_xhtml cfg
            (process_chapters (files.map contentOf))).toc
          = (if coverConfigured cfg then
                [("Text/cover.xhtml", "Cover")] else [])
            ++ (List.range files.length).map (fun i =>
                ("Text/chapter-" ++ pad2 (i + 1) ++ ".xhtml",
                 escape_xml (extractTitle (contentOf (files.getD i ""))
                   (i + 1))))) ∧
    (∃ files,
      discoverChapters ["chap-3.md", "chap-1.md"] = DiscResult.ok files ∧
      discoverChapters ["chap-1.md", "chap-3.md"] = DiscResult.ok files ∧
      (files.map (keyD
        (activePfx ["chap-3.md", "chap-1.md"]))).Pairwise (· < ·) ∧
      files.Perm (globFiles (activePfx ["chap-3.md", "chap-1.md"])
        ["chap-3.md", "chap-1.md"]) ∧
      ∀ (cfg : Config) (fsx : String → Bool) (contentOf : String → String),
        (generate_content_opf cfg fsx
            (process_chapters (files.map contentOf))).spine
          = (if coverConfigured cfg then ["cover"] else [])
            ++ (List.range files.length).map
                (fun i => "chap" ++ pad2 (i + 1)) ∧
        (generate_content_opf cfg fsx
            (process_chapters (files.map contentOf))).manifest
          = [navItem, cssItem]
            ++ (if coverPresent cfg fsx then
                  [coverImageItem cfg, coverDocItem] else [])
            ++ (List.range files.length).map (fun i =>
                ({ id := "chap" ++ pad2 (i + 1),
                   href := "Text/chapter-" ++ pad2 (i + 1) ++ ".xhtml",
                   mediaType := "application/xhtml+xml" } : ManifestItem)) ∧
        (generate_nav_xhtml cfg
            (process_chapters (files.map contentOf))).toc
          = (if coverConfigured cfg then
                [("Text/cover.xhtml", "Cover")] else [])
            ++ (List.range files.length).map (fun i =>
                ("Text/chapter-" ++ pad2 (i + 1) ++ ".xhtml",
                 escape_xml (extractTitle (contentOf (files.getD i ""))
                   (i + 1))))) :=
  ⟨claim_C3_spine_manifest_nav_follow_numeric_order
    ["chapter-2.md", "chapter-10.md", "chapter-1.md"]
    ["chapter-1.md", "chapter-2.md", "chapter-10.md"]
    (by decide) (by decide) (by decide) (by decide),
   claim_C3_spine_manifest_nav_follow_numeric_order
    ["chap-3.md", "chap-1.md"] ["chap-1.md", "chap-3.md"]
    (by decide) (by decide) (by decide) (by decide)⟩

/-! ## Witnesses at concrete inputs for the universally quantified claims -/

/-- Witness for C4 at a concrete staged tree. -/
theorem claim_C4_witness :
    (package_epub ["META-INF/container.xml", "OEBPS/content.opf"]).head?
      = some { arcname := "mimetype", compress := CompressType.stored } ∧
    ({ arcname := "OEBPS/content.opf",
       compress := CompressType.deflated } : ZipEntry).compress
      = CompressType.deflated := by
  have h := claim_C4_mimetype_first_stored_rest_deflated
    ["META-INF/container.xml", "OEBPS/content.opf"]
  exact ⟨h.2.2.1, h.2.2.2 _ (by decide)⟩

/-- Witness for C7 at a concrete user-supplied string. -/
theorem claim_C7_witness :
    noRawSpecials (escape_xml "a<b&\"c'd>").data = true ∧
    ampsEntityOnly (escape_xml "a<b&\"c'd>").data = true :=
  (claim_C7_user_strings_escaped cfgPlain fsNone []).1 "a<b&\"c'd>"

/-- Witness for C9 at a concrete file list. -/
theorem claim_C9_witness :
    DiscResult.attrError ≠ DiscResult.ok ["chapter-draft.md"] :=
  claim_C9_sort_key_attribute_error.2.2.2.2 ["chapter-draft.md"]

/-- Witness for C10 at a concrete string. -/
theorem claim_C10_witness :
    fix_special_chars (fix_special_chars "a\\nb") = fix_special_chars "a\\nb" :=
  claim_C10_fix_special_chars_idempotent "a\\nb"

end M2E
